import Mathlib

/-!
Verification development for the incremental block-windowing engine of
fast-draft-js.  The definitions below are a shallow embedding of
`src/component/contents/utils/getLazyLoadedBlockIndexes.js` (the first,
authoritative variant in that file), of the in-place block annotation it
performs, and of the sibling-navigator functions `getNextSibling`
(unnamed/part_000, lines 140-170) and `getPreviousSibling`
(DraftEditorContents-core.react.js, lines 485-514).

JS numbers used as indexes are modelled as `Int` (findIndex returns -1),
array reads that would dereference `undefined` are modelled with `Option`,
and a thrown `TypeError` is modelled as `Except.error`.
-/

/-- A Draft content block: stable key, type string, depth, and the optional
`isOpen` entry of its data map (`none` models an absent or non-boolean
value, which the source treats as "open"). -/
structure Block where
  key : String
  type : String
  depth : Nat
  isOpen : Option Bool
deriving DecidableEq

instance : Inhabited Block := ⟨⟨"", "", 0, none⟩⟩

/-- A block as it sits in the filtered array: the source block together with
the transient annotations written by `mapFilteredBlock`. -/
structure FilteredBlock where
  block : Block
  originalIndex : Nat
  isSection : Bool
  hidden : Bool
deriving DecidableEq

instance : Inhabited FilteredBlock := ⟨⟨default, 0, false, false⟩⟩

/-- The part of a Draft `SelectionState` the function reads (getStartKey /
getEndKey). -/
structure SelectionState where
  startKey : String
  endKey : String
deriving DecidableEq

/-- The part of the Draft `EditorState` the function reads. -/
structure EditorState where
  selection : SelectionState
deriving DecidableEq

/-- Modelled from the spec: the `LazyLoadingConstants` module itself is not
under src/, but the spec fixes `maxWindowSize` to 50 and the in-repo
snapshot (unnamed/part_000, line 80) defines the same constant as 50. -/
def MAX_LAZY_LOAD_BLOCKS : Int := 50

/-- Modelled from the spec: the offset constant, 4 per the spec scenarios
and per unnamed/part_000, line 81. -/
def LAZY_LOAD_BLOCK_OFFSET : Int := 4

/-- The condition of line 33 of the source: a depth-0 ordered-list-item,
i.e. a collapsible section header. -/
def isHeader (b : Block) : Bool := b.type == "ordered-list-item" && b.depth == 0

/-- `mapFilteredBlock` (lines 7-12): annotates a block with its original
index, section flag and hidden flag (`typeof hidden === 'boolean' ? hidden
: false`).  The purely functional value it produces; the in-place write to
the source block is modelled separately by `annotatePass`. -/
def mapFilteredBlock (block : Block) (index : Nat) (isSection : Bool)
    (hidden : Option Bool) : FilteredBlock :=
  ⟨block, index, isSection, hidden.getD false⟩

/-- The section-filter loop (lines 20-46): walks the blocks with the
`shouldSkipBlocks` flag, always keeping depth-0 ordered-list-item headers
and resetting the flag from their `isOpen` data, and keeping any other
block iff the flag is false.  `i` is the loop counter. -/
def sectionFilterGo : List Block → Nat → Bool → List FilteredBlock
  | [], _, _ => []
  | b :: rest, i, skipping =>
    if isHeader b then
      mapFilteredBlock b i (b.type == "ordered-list-item") none ::
        sectionFilterGo rest (i + 1) (!(b.isOpen.getD true))
    else if skipping then
      sectionFilterGo rest (i + 1) skipping
    else
      mapFilteredBlock b i (b.type == "ordered-list-item") none ::
        sectionFilterGo rest (i + 1) skipping

/-- Lines 20-59: the filter loop followed by the forced re-inclusion of the
true last block, tagged `hidden = true`, when its key differs from the last
filtered key.  `none` models the `TypeError` thrown on an empty input at
`_blocks[_blocks.length - 1].getKey()`. -/
def filteredBlocks (bs : List Block) : Option (List FilteredBlock) :=
  let blocks := sectionFilterGo bs 0 false
  match bs.getLast?, blocks.getLast? with
  | some lastOriginal, some lastFiltered =>
    if lastOriginal.key ≠ lastFiltered.block.key then
      some (blocks ++ [mapFilteredBlock lastOriginal (bs.length - 1)
        (lastOriginal.type == "ordered-list-item") (some true)])
    else
      some blocks
  | _, _ => none

/-- `Array.prototype.findIndex` over the original blocks by key
(lines 65-66): -1 when absent. -/
def findIndexKey (bs : List Block) (k : String) : Int :=
  match bs.findIdx? (fun b => b.key == k) with
  | some i => (i : Int)
  | none => -1

/-- `findIndex` over the filtered blocks by key (line 70). -/
def findIndexFilteredKey (bs : List FilteredBlock) (k : String) : Int :=
  match bs.findIdx? (fun fb => fb.block.key == k) with
  | some i => (i : Int)
  | none => -1

/-- Lines 76-99: the start/end window computation around the focus index
`f` in a filtered array of length `len`, including both clamping steps.
Returns the final `(start, end)` pair. -/
def clampWindow (len : Nat) (f : Int) : Int × Int :=
  let BLOCK_RANGE := MAX_LAZY_LOAD_BLOCKS / 2
  let start0 := f - BLOCK_RANGE - LAZY_LOAD_BLOCK_OFFSET
  let end0 := f + BLOCK_RANGE + LAZY_LOAD_BLOCK_OFFSET
  let LAST : Int := (len : Int) - 1
  let start1 := if start0 < 0 then 0 else start0
  let end1 := if start0 < 0 then end0 - start0 else end0
  if end1 > LAST then
    let e := LAST
    let s := e - MAX_LAZY_LOAD_BLOCKS
    (if s < 0 then 0 else s, e)
  else
    (start1, end1)

/-- `blocks[i]` for a possibly negative JS index; `none` models the
`undefined` result whose member access would throw. -/
def getAt? (l : List FilteredBlock) (i : Int) : Option FilteredBlock :=
  if 0 ≤ i then l[i.toNat]? else none

/-- The slice loop of lines 128-132, iterating `n` times from position `s`
and pushing each `blocks[i].originalIndex`; `none` models a throwing
out-of-range access. -/
def sliceOrigAux (blocks : List FilteredBlock) (s : Int) : Nat → Option (List Int)
  | 0 => some []
  | n + 1 =>
    match getAt? blocks s with
    | none => none
    | some fb =>
      match sliceOrigAux blocks (s + 1) n with
      | none => none
      | some rest => some ((fb.originalIndex : Int) :: rest)

/-- The slice loop `for (let i = start; i <= end; i++)`. -/
def sliceOrig (blocks : List FilteredBlock) (s e : Int) : Option (List Int) :=
  sliceOrigAux blocks s (e + 1 - s).toNat

/-- Lines 110-153: the emission of the result array, in source order:
first-block marker, off-screen-above selection markers, the slice, the
off-screen-below selection markers, the last-block marker.  `startSel` and
`endSel` are the findIndex results over the original array, `LAST` is
`blocks.length - 1` over the filtered array, `lastOrig` is
`_blocks.length - 1`, and `startOrig`/`endOrig` are
`blocks[start].originalIndex` / `blocks[end].originalIndex`. -/
def assembleIndexes (startSel endSel s e LAST lastOrig startOrig endOrig : Int)
    (slice : List Int) : List Int :=
  (if s > 0 then [(0 : Int)] else []) ++
  (if startSel ≠ -1 ∧ startSel < startOrig ∧ startSel ≠ 0 then [startSel] else []) ++
  (if endSel ≠ -1 ∧ endSel < startOrig ∧ endSel ≠ 0 ∧ endSel ≠ startSel then
    [endSel] else []) ++
  slice ++
  (if startSel ≠ -1 ∧ startSel > endOrig ∧ startSel ≠ LAST then [startSel] else []) ++
  (if endSel ≠ -1 ∧ endSel > endOrig ∧ endSel ≠ LAST ∧ endSel ≠ startSel then
    [endSel] else []) ++
  (if e < LAST then [lastOrig] else [])

/-- `getLazyLoadedBlockIndexes` (lines 14-154, first variant): the full
pipeline.  `none` models a thrown `TypeError` (empty document, or an
out-of-range filtered access). -/
def getLazyLoadedBlockIndexes (editorState : EditorState) (_blocks : List Block)
    (initialBlockKey : String) : Option (List Int) :=
  match filteredBlocks _blocks with
  | none => none
  | some blocks =>
    let startSel := findIndexKey _blocks editorState.selection.startKey
    let endSel := findIndexKey _blocks editorState.selection.endKey
    let f := findIndexFilteredKey blocks initialBlockKey
    let se := clampWindow blocks.length f
    match getAt? blocks se.1, getAt? blocks se.2, sliceOrig blocks se.1 se.2 with
    | some startBlock, some endBlock, some slice =>
      some (assembleIndexes startSel endSel se.1 se.2
        ((blocks.length : Int) - 1) ((_blocks.length : Int) - 1)
        (startBlock.originalIndex : Int) (endBlock.originalIndex : Int) slice)
    | _, _, _ => none

/-- The `shouldSkipBlocks` flag as a fold over a prefix of the document:
the value the flag holds after the loop of lines 20-46 has processed
exactly the given blocks, starting from `init`. -/
def skipStateAfter (bs : List Block) (init : Bool) : Bool :=
  bs.foldl (fun skip b => if isHeader b then !(b.isOpen.getD true) else skip) init

/-- A block together with the three annotation fields the source writes in
place; `none` models a field that has never been assigned (`undefined`).
Used to state what `mapFilteredBlock` does to its argument object. -/
structure MutBlock where
  key : String
  type : String
  depth : Nat
  isOpen : Option Bool
  originalIndex : Option Nat
  isSection : Option Bool
  hidden : Option Bool
deriving DecidableEq

/-- The effect of `mapFilteredBlock` (lines 7-12) on the block object it
receives: the three assignments `block.originalIndex = index`,
`block.isSection = isSection`, `block.hidden = ...` performed on the
argument itself, which is then returned. -/
def mapFilteredBlockMut (b : MutBlock) (index : Nat) (isSection : Bool)
    (hidden : Option Bool) : MutBlock :=
  { b with originalIndex := some index, isSection := some isSection,
           hidden := some (hidden.getD false) }

/-- The state of the `_blocks` array after the loop of lines 23-46 has run:
line 31 applies `mapFilteredBlock` to every block object of the input
array (kept or skipped alike), so every cell of the caller-owned array
points at a block whose annotation fields have been overwritten. -/
def annotatePass (bs : List MutBlock) : List MutBlock :=
  bs.mapIdx (fun i b => mapFilteredBlockMut b i (b.type == "ordered-list-item") none)

/-!  DOM model for the sibling navigator.  A document is a store of nodes
addressed by position; each node records its parent, the ids of its
children in order, its tag name, and whether it carries the
`number-list-element` / `ordered-list-element` attributes the source tests
for. -/

/-- One DOM element. -/
structure NodeRec where
  parent : Option Nat
  children : List Nat
  tagName : String
  numberListAttr : Bool
  orderedListAttr : Bool
deriving DecidableEq

/-- A DOM: the node store.  Node `i` is `d[i]?`. -/
abbrev Dom := List NodeRec

/-- The element directly after `i` in a sibling list. -/
def listNextAfter : List Nat → Nat → Option Nat
  | [], _ => none
  | [_], _ => none
  | a :: b :: rest, i => if a = i then some b else listNextAfter (b :: rest) i

/-- The element directly before `i` in a sibling list. -/
def listPrevBefore : List Nat → Nat → Option Nat
  | [], _ => none
  | [_], _ => none
  | a :: b :: rest, i =>
    if b = i then some a else listPrevBefore (b :: rest) i

/-- `element.parentElement`. -/
def parentOf (d : Dom) (i : Nat) : Option Nat :=
  match d[i]? with
  | none => none
  | some n => n.parent

/-- `element.nextSibling`: the next entry of the parent's child list. -/
def nextSiblingOf (d : Dom) (i : Nat) : Option Nat :=
  match parentOf d i with
  | none => none
  | some p =>
    match d[p]? with
    | none => none
    | some pn => listNextAfter pn.children i

/-- `element.previousSibling`. -/
def prevSiblingOf (d : Dom) (i : Nat) : Option Nat :=
  match parentOf d i with
  | none => none
  | some p =>
    match d[p]? with
    | none => none
    | some pn => listPrevBefore pn.children i

/-- `isElementList` (part_000, lines 97-99): tag is OL or UL. -/
def isElementList (d : Dom) (i : Nat) : Bool :=
  match d[i]? with
  | none => false
  | some n => n.tagName == "OL" || n.tagName == "UL"

/-- `getElementWrapper` (part_000, lines 101-103):
`element.parentElement.parentElement`; `Except.error` models the
`TypeError` thrown when `parentElement` is null. -/
def getElementWrapper (d : Dom) (i : Nat) : Except Unit (Option Nat) :=
  match parentOf d i with
  | none => Except.error ()
  | some p => Except.ok (parentOf d p)

/-- `isElementWrapped` (part_000, lines 105-108); throws when the wrapper
is null (`null.getAttribute`). -/
def isElementWrapped (d : Dom) (i : Nat) : Except Unit Bool :=
  match getElementWrapper d i with
  | Except.error e => Except.error e
  | Except.ok none => Except.error ()
  | Except.ok (some w) =>
    match d[w]? with
    | none => Except.ok false
    | some wn => Except.ok (wn.numberListAttr || wn.orderedListAttr)

/-- The optional projection callback of the navigators (`callback ?
callback(element) : element`). -/
def applyCallback (cb : Option (Option Nat → Except Unit (Option Nat)))
    (element : Option Nat) : Except Unit (Option Nat) :=
  match cb with
  | some f => f element
  | none => Except.ok element

/-- `getNextSibling` (unnamed/part_000, lines 140-170): walks `count`
siblings forward, stepping out of list wrappers when the chain ends inside
one; when the chain is exhausted it returns the node it stopped on, and a
null dereference (`null.nextSibling`) is `Except.error`. -/
def getNextSibling (d : Dom) (cb : Option (Option Nat → Except Unit (Option Nat))) :
    Option Nat → Nat → Except Unit (Option Nat)
  | element, count =>
    match applyCallback cb element with
    | Except.error e => Except.error e
    | Except.ok newElement =>
      match count with
      | 0 => Except.ok newElement
      | c + 1 =>
        match newElement with
        | none => Except.error ()
        | some ne =>
          match nextSiblingOf d ne with
          | some ns => getNextSibling d cb (some ns) c
          | none =>
            match getElementWrapper d ne with
            | Except.error e => Except.error e
            | Except.ok wrapperElement =>
              match isElementWrapped d ne with
              | Except.error e => Except.error e
              | Except.ok wrapped =>
                if wrapped then
                  match wrapperElement with
                  | none => Except.error ()
                  | some w =>
                    match nextSiblingOf d w with
                    | some wn => getNextSibling d cb (some wn) c
                    | none =>
                      match parentOf d w with
                      | none => Except.error ()
                      | some pw =>
                        if isElementList d pw then
                          match nextSiblingOf d pw with
                          | some pn => getNextSibling d cb (some pn) c
                          | none => Except.ok (some ne)
                        else Except.ok (some ne)
                else Except.ok (some ne)

/-- `getPreviousSibling` (DraftEditorContents-core.react.js, lines
485-499): walks `count` siblings backward; when the chain is exhausted it
returns the node it stopped on. -/
def getPreviousSibling (d : Dom) (cb : Option (Option Nat → Except Unit (Option Nat))) :
    Option Nat → Nat → Except Unit (Option Nat)
  | element, count =>
    match applyCallback cb element with
    | Except.error e => Except.error e
    | Except.ok newElement =>
      match count with
      | 0 => Except.ok newElement
      | c + 1 =>
        match newElement with
        | none => Except.error ()
        | some ne =>
          match prevSiblingOf d ne with
          | none => Except.ok (some ne)
          | some ps => getPreviousSibling d cb (some ps) c

/-- A flat rendered document: node 0 is the body, node 1 the contents
container holding `n` block elements (ids 2 through n+1) with no list
wrappers. -/
def flatDom (n : Nat) : Dom :=
  ⟨none, [1], "BODY", false, false⟩ ::
  ⟨some 0, List.range' 2 n, "DIV", false, false⟩ ::
  List.replicate n ⟨some 1, [], "DIV", false, false⟩

/-!  Concrete documents used in the scenario claims. -/

/-- A document of `n` plain paragraphs keyed by their decimal position. -/
def plainBlocks (n : Nat) : List Block :=
  (List.range n).map (fun i => ⟨toString i, "unstyled", 0, none⟩)

/-- An editor state whose selection runs between the two given keys. -/
def esSel (s e : String) : EditorState := ⟨⟨s, e⟩⟩

/-- An 81-block document: a collapsed section header at 0 hiding blocks
1-5, an open section header at 6, and plain blocks 7-80. -/
def collapsedFrontBlocks : List Block :=
  (List.range 81).map (fun i =>
    if i = 0 then ⟨toString i, "ordered-list-item", 0, some false⟩
    else if i = 6 then ⟨toString i, "ordered-list-item", 0, some true⟩
    else ⟨toString i, "unstyled", 0, none⟩)

/-- An 81-block document: plain block 0, a collapsed header at 1 hiding
blocks 2-10, an open header at 11, and plain blocks 12-80. -/
def collapsedMidBlocks : List Block :=
  (List.range 81).map (fun i =>
    if i = 1 then ⟨toString i, "ordered-list-item", 0, some false⟩
    else if i = 11 then ⟨toString i, "ordered-list-item", 0, some true⟩
    else ⟨toString i, "unstyled", 0, none⟩)

/-- A two-block document: a collapsed section header followed by one
hidden paragraph. -/
def sampleSectionBlocks : List Block :=
  [⟨"a", "ordered-list-item", 0, some false⟩, ⟨"b", "unstyled", 0, none⟩]

/-!  Lemmas about the section filter. -/

theorem sectionFilterGo_cons_false (b : Block) (rest : List Block) (i : Nat) :
    sectionFilterGo (b :: rest) i false =
      mapFilteredBlock b i (b.type == "ordered-list-item") none ::
        (if isHeader b then sectionFilterGo rest (i + 1) (!(b.isOpen.getD true))
         else sectionFilterGo rest (i + 1) false) := by
  by_cases h : isHeader b <;> simp [sectionFilterGo, h]

theorem mem_sectionFilterGo {bs : List Block} {i : Nat} {skip : Bool}
    {fb : FilteredBlock} (h : fb ∈ sectionFilterGo bs i skip) :
    ∃ j, fb.originalIndex = i + j ∧ bs[j]? = some fb.block ∧ fb.hidden = false := by
  induction bs generalizing i skip with
  | nil => simp [sectionFilterGo] at h
  | cons b rest ih =>
    simp only [sectionFilterGo] at h
    split at h
    · rcases List.mem_cons.mp h with h | h
      · refine ⟨0, ?_, ?_, ?_⟩ <;> simp [h, mapFilteredBlock]
      · obtain ⟨j, hj1, hj2, hj3⟩ := ih h
        exact ⟨j + 1, by rw [hj1]; omega, by simpa using hj2, hj3⟩
    · split at h
      · obtain ⟨j, hj1, hj2, hj3⟩ := ih h
        exact ⟨j + 1, by rw [hj1]; omega, by simpa using hj2, hj3⟩
      · rcases List.mem_cons.mp h with h | h
        · refine ⟨0, ?_, ?_, ?_⟩ <;> simp [h, mapFilteredBlock]
        · obtain ⟨j, hj1, hj2, hj3⟩ := ih h
          exact ⟨j + 1, by rw [hj1]; omega, by simpa using hj2, hj3⟩

theorem sectionFilterGo_mem_iff {bs : List Block} {j : Nat} {b : Block}
    (hj : bs[j]? = some b) (i : Nat) (skip : Bool) :
    (∃ fb ∈ sectionFilterGo bs i skip, fb.originalIndex = i + j) ↔
      (isHeader b = true ∨ skipStateAfter (bs.take j) skip = false) := by
  induction bs generalizing i skip j with
  | nil => simp at hj
  | cons hd rest ih =>
    by_cases hhd : isHeader hd
    · have hgo : sectionFilterGo (hd :: rest) i skip =
          mapFilteredBlock hd i (hd.type == "ordered-list-item") none ::
            sectionFilterGo rest (i + 1) (!(hd.isOpen.getD true)) := by
        simp [sectionFilterGo, hhd]
      cases j with
      | zero =>
        have hb : hd = b := by simpa using hj
        subst hb
        rw [hgo]
        simp only [List.take_zero]
        constructor
        · intro _
          exact Or.inl hhd
        · intro _
          exact ⟨_, List.mem_cons_self _ _, by simp [mapFilteredBlock]⟩
      | succ m =>
        have hjr : rest[m]? = some b := by simpa using hj
        have htake : skipStateAfter ((hd :: rest).take (m + 1)) skip =
            skipStateAfter (rest.take m) (!(hd.isOpen.getD true)) := by
          simp [skipStateAfter, hhd]
        rw [hgo, htake]
        constructor
        · rintro ⟨fb, hfb, horig⟩
          rcases List.mem_cons.mp hfb with rfl | hfb2
          · exfalso
            simp [mapFilteredBlock] at horig
          · exact (ih hjr (i + 1) _).mp ⟨fb, hfb2, by omega⟩
        · intro h
          obtain ⟨fb, hfb, horig⟩ := (ih hjr (i + 1) _).mpr h
          exact ⟨fb, List.mem_cons_of_mem _ hfb, by omega⟩
    · cases skip with
      | true =>
        have hgo : sectionFilterGo (hd :: rest) i true =
            sectionFilterGo rest (i + 1) true := by
          simp [sectionFilterGo, hhd]
        cases j with
        | zero =>
          have hb : hd = b := by simpa using hj
          subst hb
          rw [hgo]
          simp only [List.take_zero]
          constructor
          · rintro ⟨fb, hfb, horig⟩
            obtain ⟨j2, hj2, -, -⟩ := mem_sectionFilterGo hfb
            omega
          · rintro (h | h)
            · exact absurd h hhd
            · exact absurd h (by simp [skipStateAfter])
        | succ m =>
          have hjr : rest[m]? = some b := by simpa using hj
          have htake : skipStateAfter ((hd :: rest).take (m + 1)) true =
              skipStateAfter (rest.take m) true := by
            simp [skipStateAfter, hhd]
          rw [hgo, htake]
          constructor
          · rintro ⟨fb, hfb, horig⟩
            exact (ih hjr (i + 1) true).mp ⟨fb, hfb, by omega⟩
          · intro h
            obtain ⟨fb, hfb, horig⟩ := (ih hjr (i + 1) true).mpr h
            exact ⟨fb, hfb, by omega⟩
      | false =>
        have hgo : sectionFilterGo (hd :: rest) i false =
            mapFilteredBlock hd i (hd.type == "ordered-list-item") none ::
              sectionFilterGo rest (i + 1) false := by
          simp [sectionFilterGo, hhd]
        cases j with
        | zero =>
          rw [hgo]
          simp only [List.take_zero]
          constructor
          · intro _
            right
            rfl
          · intro _
            exact ⟨_, List.mem_cons_self _ _, by simp [mapFilteredBlock]⟩
        | succ m =>
          have hjr : rest[m]? = some b := by simpa using hj
          have htake : skipStateAfter ((hd :: rest).take (m + 1)) false =
              skipStateAfter (rest.take m) false := by
            simp [skipStateAfter, hhd]
          rw [hgo, htake]
          constructor
          · rintro ⟨fb, hfb, horig⟩
            rcases List.mem_cons.mp hfb with rfl | hfb2
            · exfalso
              simp [mapFilteredBlock] at horig
            · exact (ih hjr (i + 1) false).mp ⟨fb, hfb2, by omega⟩
          · intro h
            obtain ⟨fb, hfb, horig⟩ := (ih hjr (i + 1) false).mpr h
            exact ⟨fb, List.mem_cons_of_mem _ hfb, by omega⟩

theorem sectionFilterGo_ne_nil {bs : List Block} (h : bs ≠ []) (i : Nat) :
    sectionFilterGo bs i false ≠ [] := by
  cases bs with
  | nil => exact absurd rfl h
  | cons b rest =>
    rw [sectionFilterGo_cons_false]
    simp

theorem filteredBlocks_eq {bs : List Block} {lastB : Block} {lf : FilteredBlock}
    (hlast : bs.getLast? = some lastB)
    (hlf : (sectionFilterGo bs 0 false).getLast? = some lf) :
    filteredBlocks bs =
      if lastB.key ≠ lf.block.key then
        some (sectionFilterGo bs 0 false ++ [mapFilteredBlock lastB (bs.length - 1)
          (lastB.type == "ordered-list-item") (some true)])
      else some (sectionFilterGo bs 0 false) := by
  simp only [filteredBlocks, hlast, hlf]

theorem filteredBlocks_cases {bs : List Block} {blocks : List FilteredBlock}
    (hbs : bs ≠ []) (hfb : filteredBlocks bs = some blocks) :
    blocks = sectionFilterGo bs 0 false ∨
      ∃ lastB, bs.getLast? = some lastB ∧
        blocks = sectionFilterGo bs 0 false ++ [mapFilteredBlock lastB (bs.length - 1)
          (lastB.type == "ordered-list-item") (some true)] := by
  obtain ⟨lastB, hlast⟩ := Option.isSome_iff_exists.mp
    (List.getLast?_isSome.mpr hbs)
  obtain ⟨lf, hlf⟩ := Option.isSome_iff_exists.mp
    (List.getLast?_isSome.mpr (sectionFilterGo_ne_nil hbs 0))
  rw [filteredBlocks_eq hlast hlf] at hfb
  split at hfb
  · right
    exact ⟨lastB, hlast, (Option.some_inj.mp hfb).symm⟩
  · left
    exact (Option.some_inj.mp hfb).symm

theorem filteredBlocks_ne_nil {bs : List Block} {blocks : List FilteredBlock}
    (hbs : bs ≠ []) (hfb : filteredBlocks bs = some blocks) : blocks ≠ [] := by
  rcases filteredBlocks_cases hbs hfb with h | ⟨lastB, -, h⟩
  · rw [h]
    exact sectionFilterGo_ne_nil hbs 0
  · rw [h]
    simp

theorem filteredBlocks_isSome {bs : List Block} (hbs : bs ≠ []) :
    ∃ blocks, filteredBlocks bs = some blocks := by
  obtain ⟨lastB, hlast⟩ := Option.isSome_iff_exists.mp
    (List.getLast?_isSome.mpr hbs)
  obtain ⟨lf, hlf⟩ := Option.isSome_iff_exists.mp
    (List.getLast?_isSome.mpr (sectionFilterGo_ne_nil hbs 0))
  rw [filteredBlocks_eq hlast hlf]
  split
  · exact ⟨_, rfl⟩
  · exact ⟨_, rfl⟩

theorem filteredBlocks_head_orig {bs : List Block} {blocks : List FilteredBlock}
    (hbs : bs ≠ []) (hfb : filteredBlocks bs = some blocks) :
    (blocks.getD 0 default).originalIndex = 0 := by
  have hhead : ∀ (l : List FilteredBlock), l = sectionFilterGo bs 0 false →
      (l.getD 0 default).originalIndex = 0 := by
    intro l hl
    cases bs with
    | nil => exact absurd rfl hbs
    | cons b rest =>
      rw [hl, sectionFilterGo_cons_false]
      simp [mapFilteredBlock]
  rcases filteredBlocks_cases hbs hfb with h | ⟨lastB, -, h⟩
  · exact hhead blocks h
  · have hne := sectionFilterGo_ne_nil hbs 0
    have h0 : 0 < (sectionFilterGo bs 0 false).length := List.length_pos.mpr hne
    have : blocks.getD 0 default = (sectionFilterGo bs 0 false).getD 0 default := by
      rw [h, List.getD_eq_getElem?_getD, List.getD_eq_getElem?_getD,
        List.getElem?_append_left h0]
    rw [this]
    exact hhead _ rfl

theorem key_injective {bs : List Block} (hnd : (bs.map Block.key).Nodup)
    {i j : Nat} {a b : Block} (ha : bs[i]? = some a) (hb : bs[j]? = some b)
    (hk : a.key = b.key) : i = j := by
  have hi : i < bs.length := by
    by_contra hcon
    rw [List.getElem?_eq_none (by omega)] at ha
    exact Option.noConfusion ha
  have hj : j < bs.length := by
    by_contra hcon
    rw [List.getElem?_eq_none (by omega)] at hb
    exact Option.noConfusion hb
  have hmi : i < (bs.map Block.key).length := by simpa using hi
  have hmj : j < (bs.map Block.key).length := by simpa using hj
  have hget : (bs.map Block.key).get ⟨i, hmi⟩ = (bs.map Block.key).get ⟨j, hmj⟩ := by
    have ha2 : bs[i] = a := by
      have := List.getElem?_eq_getElem hi
      rw [ha] at this
      exact (Option.some_inj.mp this).symm
    have hb2 : bs[j] = b := by
      have := List.getElem?_eq_getElem hj
      rw [hb] at this
      exact (Option.some_inj.mp this).symm
    simp [List.get_eq_getElem, ha2, hb2, hk]
  have := (List.Nodup.get_inj_iff hnd).mp hget
  simpa using this

theorem filteredBlocks_last_orig {bs : List Block} {blocks : List FilteredBlock}
    (hnd : (bs.map Block.key).Nodup) (hbs : bs ≠ [])
    (hfb : filteredBlocks bs = some blocks) :
    (blocks.getD (blocks.length - 1) default).originalIndex = bs.length - 1 := by
  obtain ⟨lastB, hlast⟩ := Option.isSome_iff_exists.mp (List.getLast?_isSome.mpr hbs)
  obtain ⟨lf, hlf⟩ := Option.isSome_iff_exists.mp
    (List.getLast?_isSome.mpr (sectionFilterGo_ne_nil hbs 0))
  have hlen : 0 < bs.length := List.length_pos.mpr hbs
  have hlastB : bs[bs.length - 1]? = some lastB := by
    rw [← List.getLast?_eq_getElem?]
    exact hlast
  rw [filteredBlocks_eq hlast hlf] at hfb
  split at hfb
  · rename_i hkeys
    have hblocks := (Option.some_inj.mp hfb).symm
    have hlenb : blocks.length = (sectionFilterGo bs 0 false).length + 1 := by
      rw [hblocks]
      simp
    rw [hblocks, List.getD_eq_getElem?_getD]
    have : (sectionFilterGo bs 0 false ++ [mapFilteredBlock lastB (bs.length - 1)
        (lastB.type == "ordered-list-item") (some true)]).length - 1 =
        (sectionFilterGo bs 0 false).length := by
      simp
    rw [hblocks] at hlenb
    rw [this, List.getElem?_append_right (by omega)]
    simp [mapFilteredBlock]
  · rename_i hkeys
    have hkeq : lastB.key = lf.block.key := by
      by_contra hcon
      exact hkeys hcon
    have hblocks := (Option.some_inj.mp hfb).symm
    have hlfmem : lf ∈ sectionFilterGo bs 0 false := List.mem_of_mem_getLast? hlf
    obtain ⟨j, hj1, hj2, -⟩ := mem_sectionFilterGo hlfmem
    have hjeq : j = bs.length - 1 := key_injective hnd hj2 hlastB hkeq.symm
    have hlast2 : blocks.getD (blocks.length - 1) default = lf := by
      rw [hblocks, List.getD_eq_getElem?_getD, ← List.getLast?_eq_getElem?, hlf]
      rfl
    rw [hlast2, hj1]
    omega

theorem clampWindow_bounds (len : Nat) (f : Int) (hlen : 1 ≤ len) :
    0 ≤ (clampWindow len f).1 ∧ (clampWindow len f).1 ≤ (clampWindow len f).2 ∧
      (clampWindow len f).2 ≤ (len : Int) - 1 := by
  have hlen2 : (1 : Int) ≤ (len : Int) := by exact_mod_cast hlen
  simp only [clampWindow, MAX_LAZY_LOAD_BLOCKS, LAZY_LOAD_BLOCK_OFFSET]
  norm_num
  split_ifs <;> refine ⟨?_, ?_, ?_⟩ <;> simp <;> omega

theorem getAt?_eq_getD {l : List FilteredBlock} {i : Int} (h0 : 0 ≤ i)
    (hl : i.toNat < l.length) : getAt? l i = some (l.getD i.toNat default) := by
  rw [getAt?, if_pos h0, List.getD_eq_getElem?_getD, List.getElem?_eq_getElem hl]
  rfl

theorem sliceOrigAux_eq {blocks : List FilteredBlock} (s : Int) (n : Nat)
    (h0 : 0 ≤ s) (h : s.toNat + n ≤ blocks.length) :
    sliceOrigAux blocks s n =
      some (((blocks.drop s.toNat).take n).map
        (fun fb => (fb.originalIndex : Int))) := by
  induction n generalizing s with
  | zero => simp [sliceOrigAux]
  | succ m ih =>
    have hs : s.toNat < blocks.length := by omega
    have h1 : (s + 1).toNat = s.toNat + 1 := by omega
    have hD : blocks.getD s.toNat default = blocks[s.toNat] := by
      rw [List.getD_eq_getElem?_getD, List.getElem?_eq_getElem hs]
      rfl
    have hdrop : blocks.drop s.toNat = blocks[s.toNat] :: blocks.drop (s.toNat + 1) :=
      List.drop_eq_getElem_cons hs
    rw [sliceOrigAux, getAt?_eq_getD h0 hs, ih (s + 1) (by omega) (by omega), h1, hD,
      hdrop, List.take_succ_cons, List.map_cons]

theorem getLazy_eq {es : EditorState} {k : String} {bs : List Block}
    {blocks : List FilteredBlock} {s e : Int} (hbs : bs ≠ [])
    (hfb : filteredBlocks bs = some blocks)
    (hs : s = (clampWindow blocks.length (findIndexFilteredKey blocks k)).1)
    (he : e = (clampWindow blocks.length (findIndexFilteredKey blocks k)).2) :
    getLazyLoadedBlockIndexes es bs k =
      some (assembleIndexes (findIndexKey bs es.selection.startKey)
        (findIndexKey bs es.selection.endKey) s e
        ((blocks.length : Int) - 1) ((bs.length : Int) - 1)
        ((blocks.getD s.toNat default).originalIndex : Int)
        ((blocks.getD e.toNat default).originalIndex : Int)
        (((blocks.drop s.toNat).take (e + 1 - s).toNat).map
          (fun fb => (fb.originalIndex : Int)))) := by
  have hlen : 1 ≤ blocks.length :=
    List.length_pos.mpr (filteredBlocks_ne_nil hbs hfb)
  obtain ⟨hb0, hbse, hbe⟩ :=
    clampWindow_bounds blocks.length (findIndexFilteredKey blocks k) hlen
  rw [← hs] at hb0
  rw [← hs, ← he] at hbse
  rw [← he] at hbe
  have he0 : (0 : Int) ≤ e := le_trans hb0 hbse
  have hsn : s.toNat < blocks.length := by omega
  have hen : e.toNat < blocks.length := by omega
  have hslice : sliceOrig blocks s e =
      some (((blocks.drop s.toNat).take (e + 1 - s).toNat).map
        (fun fb => (fb.originalIndex : Int))) := by
    rw [sliceOrig]
    exact sliceOrigAux_eq s (e + 1 - s).toNat hb0 (by omega)
  simp only [getLazyLoadedBlockIndexes, hfb]
  rw [← hs, ← he]
  simp only [getAt?_eq_getD hb0 hsn, getAt?_eq_getD he0 hen, hslice]

theorem mem_slice_of_index {blocks : List FilteredBlock} {s e : Int} (h0 : 0 ≤ s)
    (hse : s ≤ e) (he : e ≤ (blocks.length : Int) - 1) {i : Nat}
    (hi1 : s.toNat ≤ i) (hi2 : i ≤ e.toNat) :
    ((blocks.getD i default).originalIndex : Int) ∈
      (((blocks.drop s.toNat).take (e + 1 - s).toNat).map
        (fun fb => (fb.originalIndex : Int))) := by
  have hlen : i < blocks.length := by omega
  have hgetD : blocks.getD i default = blocks[i] := by
    rw [List.getD_eq_getElem?_getD, List.getElem?_eq_getElem hlen]
    rfl
  apply List.mem_map.mpr
  refine ⟨blocks[i], ?_, by rw [hgetD]⟩
  have hlt : i - s.toNat < ((blocks.drop s.toNat).take (e + 1 - s).toNat).length := by
    simp only [List.length_take, List.length_drop]
    omega
  have hel : ((blocks.drop s.toNat).take (e + 1 - s).toNat)[i - s.toNat] = blocks[i] := by
    rw [List.getElem_take, List.getElem_drop]
    congr 1
    omega
  rw [← hel]
  exact List.getElem_mem hlt

theorem slice_mem_blocks {blocks : List FilteredBlock} {s e x : Int}
    (hx : x ∈ (((blocks.drop s.toNat).take (e + 1 - s).toNat).map
      (fun fb => (fb.originalIndex : Int)))) :
    ∃ fb ∈ blocks, x = (fb.originalIndex : Int) := by
  obtain ⟨fb, hfb, hfx⟩ := List.mem_map.mp hx
  exact ⟨fb, List.mem_of_mem_drop (List.mem_of_mem_take hfb), hfx.symm⟩

/-- C1: for every document whose filtered sequence is longer than the
maximum window size and every focus key present in the filtered sequence,
the index sequence returned by `getLazyLoadedBlockIndexes` contains both
original index 0 and the last original index (keys being distinct, as the
data model requires). -/
theorem claim_C1_first_and_last_included (es : EditorState) (bs : List Block)
    (k : String) (blocks : List FilteredBlock) (hbs : bs ≠ [])
    (hnd : (bs.map Block.key).Nodup)
    (hfb : filteredBlocks bs = some blocks)
    (hlong : MAX_LAZY_LOAD_BLOCKS < (blocks.length : Int))
    (hfocus : findIndexFilteredKey blocks k ≠ -1) :
    ∃ out, getLazyLoadedBlockIndexes es bs k = some out ∧
      (0 : Int) ∈ out ∧ ((bs.length : Int) - 1) ∈ out := by
  have hblen : 1 ≤ blocks.length :=
    List.length_pos.mpr (filteredBlocks_ne_nil hbs hfb)
  have hbslen : 1 ≤ bs.length := List.length_pos.mpr hbs
  obtain ⟨hb0, hbse, hbe⟩ :=
    clampWindow_bounds blocks.length (findIndexFilteredKey blocks k) hblen
  set s := (clampWindow blocks.length (findIndexFilteredKey blocks k)).1 with hs
  set e := (clampWindow blocks.length (findIndexFilteredKey blocks k)).2 with he
  refine ⟨_, getLazy_eq hbs hfb hs he, ?_, ?_⟩
  · by_cases hpos : s > 0
    · simp [assembleIndexes, hpos]
    · have hs0 : s = 0 := by omega
      have hmem : ((blocks.getD 0 default).originalIndex : Int) ∈
          (((blocks.drop s.toNat).take (e + 1 - s).toNat).map
            (fun fb => (fb.originalIndex : Int))) :=
        mem_slice_of_index hb0 hbse hbe (by omega) (by omega)
      rw [filteredBlocks_head_orig hbs hfb] at hmem
      simp only [assembleIndexes, List.mem_append]
      tauto
  · by_cases hend : e < (blocks.length : Int) - 1
    · simp [assembleIndexes, hend]
    · have hee : e = (blocks.length : Int) - 1 := by omega
      have hmem : ((blocks.getD (blocks.length - 1) default).originalIndex : Int) ∈
          (((blocks.drop s.toNat).take (e + 1 - s).toNat).map
            (fun fb => (fb.originalIndex : Int))) :=
        mem_slice_of_index hb0 hbse hbe (by omega) (by omega)
      rw [filteredBlocks_last_orig hnd hbs hfb] at hmem
      have hcast : ((bs.length - 1 : Nat) : Int) = (bs.length : Int) - 1 := by omega
      rw [hcast] at hmem
      simp only [assembleIndexes, List.mem_append]
      tauto

/-- C1 witness at a concrete instance. -/
theorem claim_C1_witness :
    (0 : Int) ∈ ((getLazyLoadedBlockIndexes (esSel "3" "3") (plainBlocks 60)
      "30").getD []) ∧
    (59 : Int) ∈ ((getLazyLoadedBlockIndexes (esSel "3" "3") (plainBlocks 60)
      "30").getD []) := by
  obtain ⟨out, h1, h2, h3⟩ := claim_C1_first_and_last_included (esSel "3" "3")
    (plainBlocks 60) "30" (sectionFilterGo (plainBlocks 60) 0 false)
    (by decide) (by decide) (by decide) (by decide) (by decide)
  rw [h1]
  have h59 : ((plainBlocks 60).length : Int) - 1 = 59 := by decide
  rw [h59] at h3
  exact ⟨h2, h3⟩

/-- C10: the function is total exactly on non-empty documents: the empty
document fails (modelled by `none`), while for every non-empty document
the clamped window bounds satisfy `0 ≤ start ≤ end ≤ filtered length - 1`,
every slice access is in range, and the call succeeds. -/
theorem claim_C10_total_on_nonempty (es : EditorState) (k : String)
    (bs : List Block) (hbs : bs ≠ []) :
    getLazyLoadedBlockIndexes es [] k = none ∧
    (getLazyLoadedBlockIndexes es bs k).isSome = true ∧
    ∀ blocks, filteredBlocks bs = some blocks →
      0 ≤ (clampWindow blocks.length (findIndexFilteredKey blocks k)).1 ∧
      (clampWindow blocks.length (findIndexFilteredKey blocks k)).1 ≤
        (clampWindow blocks.length (findIndexFilteredKey blocks k)).2 ∧
      (clampWindow blocks.length (findIndexFilteredKey blocks k)).2 ≤
        (blocks.length : Int) - 1 := by
  refine ⟨rfl, ?_, ?_⟩
  · obtain ⟨blocks, hfb⟩ := filteredBlocks_isSome hbs
    rw [getLazy_eq hbs hfb rfl rfl]
    rfl
  · intro blocks hfb
    exact clampWindow_bounds blocks.length (findIndexFilteredKey blocks k)
      (List.length_pos.mpr (filteredBlocks_ne_nil hbs hfb))

/-- C10 witness at a concrete instance. -/
theorem claim_C10_witness :
    getLazyLoadedBlockIndexes (esSel "0" "1") [] "1" = none ∧
    (getLazyLoadedBlockIndexes (esSel "0" "1") (plainBlocks 3) "1").isSome = true ∧
    0 ≤ (clampWindow (sectionFilterGo (plainBlocks 3) 0 false).length
      (findIndexFilteredKey (sectionFilterGo (plainBlocks 3) 0 false) "1")).1 ∧
    (clampWindow (sectionFilterGo (plainBlocks 3) 0 false).length
      (findIndexFilteredKey (sectionFilterGo (plainBlocks 3) 0 false) "1")).1 ≤
      (clampWindow (sectionFilterGo (plainBlocks 3) 0 false).length
        (findIndexFilteredKey (sectionFilterGo (plainBlocks 3) 0 false) "1")).2 ∧
    (clampWindow (sectionFilterGo (plainBlocks 3) 0 false).length
      (findIndexFilteredKey (sectionFilterGo (plainBlocks 3) 0 false) "1")).2 ≤
      ((sectionFilterGo (plainBlocks 3) 0 false).length : Int) - 1 := by
  have h := claim_C10_total_on_nonempty (esSel "0" "1") "1" (plainBlocks 3) (by decide)
  exact ⟨h.1, h.2.1, h.2.2 (sectionFilterGo (plainBlocks 3) 0 false) (by decide)⟩

/-- C2: the section filter pass (1) always keeps a depth-0
ordered-list-item header and leaves the skipping flag equal to the
negation of its `isOpen` data (absent or non-boolean meaning open);
(2) keeps a non-header block iff the skipping flag before it is false;
and (3) when the true last input block was omitted, appends it to the
filtered output tagged `hidden = true`, so the filtered output ends at the
same key as the input. -/
theorem claim_C2_section_filter (bs : List Block) (j : Nat) (b : Block)
    (hj : bs[j]? = some b) :
    (isHeader b = true →
      (∃ fb ∈ sectionFilterGo bs 0 false, fb.originalIndex = j) ∧
      skipStateAfter (bs.take (j + 1)) false = !(b.isOpen.getD true)) ∧
    (isHeader b = false →
      ((∃ fb ∈ sectionFilterGo bs 0 false, fb.originalIndex = j) ↔
        skipStateAfter (bs.take j) false = false)) ∧
    ((bs.map Block.key).Nodup →
      (∀ fb ∈ sectionFilterGo bs 0 false, fb.originalIndex ≠ bs.length - 1) →
      ∀ lastB, bs.getLast? = some lastB →
        filteredBlocks bs = some (sectionFilterGo bs 0 false ++
          [mapFilteredBlock lastB (bs.length - 1)
            (lastB.type == "ordered-list-item") (some true)]) ∧
        (mapFilteredBlock lastB (bs.length - 1)
          (lastB.type == "ordered-list-item") (some true)).hidden = true ∧
        (sectionFilterGo bs 0 false ++
          [mapFilteredBlock lastB (bs.length - 1)
            (lastB.type == "ordered-list-item") (some true)]).getLast?.map
          (fun fb => fb.block.key) = some lastB.key) := by
  have hjlt : j < bs.length := by
    by_contra hcon
    rw [List.getElem?_eq_none (by omega)] at hj
    exact Option.noConfusion hj
  have hbs : bs ≠ [] := by
    intro hnil
    rw [hnil] at hjlt
    simp at hjlt
  have htake : skipStateAfter (bs.take (j + 1)) false =
      if isHeader b then !(b.isOpen.getD true) else skipStateAfter (bs.take j) false := by
    rw [List.take_succ, hj]
    simp [skipStateAfter, List.foldl_append]
  refine ⟨?_, ?_, ?_⟩
  · intro hhead
    refine ⟨?_, ?_⟩
    · have := (sectionFilterGo_mem_iff hj 0 false).mpr (Or.inl hhead)
      simpa using this
    · rw [htake, if_pos hhead]
  · intro hhead
    have hiff := sectionFilterGo_mem_iff hj 0 false
    simp only [Nat.zero_add] at hiff
    rw [hiff]
    constructor
    · rintro (h | h)
      · exact absurd h (by simp [hhead])
      · exact h
    · exact fun h => Or.inr h
  · intro hnd homit lastB hlast
    obtain ⟨lf, hlf⟩ := Option.isSome_iff_exists.mp
      (List.getLast?_isSome.mpr (sectionFilterGo_ne_nil hbs 0))
    have hlen : 0 < bs.length := List.length_pos.mpr hbs
    have hlastB : bs[bs.length - 1]? = some lastB := by
      rw [← List.getLast?_eq_getElem?]
      exact hlast
    have hkeys : lastB.key ≠ lf.block.key := by
      intro hkeq
      obtain ⟨j2, hj2o, hj2g, -⟩ :=
        mem_sectionFilterGo (List.mem_of_mem_getLast? hlf)
      have : bs.length - 1 = j2 := key_injective hnd hlastB hj2g hkeq
      exact homit lf (List.mem_of_mem_getLast? hlf) (by omega)
    rw [filteredBlocks_eq hlast hlf, if_pos hkeys]
    refine ⟨rfl, rfl, ?_⟩
    rw [List.getLast?_append]
    rfl

/-- C2 witness at a concrete instance: the header of a two-block collapsed
section is kept, the flag after it is true, and the skipped last block is
re-appended hidden. -/
theorem claim_C2_witness :
    skipStateAfter (sampleSectionBlocks.take 1) false = true ∧
    filteredBlocks sampleSectionBlocks =
      some (sectionFilterGo sampleSectionBlocks 0 false ++
        [mapFilteredBlock ⟨"b", "unstyled", 0, none⟩ (sampleSectionBlocks.length - 1)
          (("unstyled" : String) == "ordered-list-item") (some true)]) := by
  have h := claim_C2_section_filter sampleSectionBlocks 0
    ⟨"a", "ordered-list-item", 0, some false⟩ rfl
  refine ⟨?_, ?_⟩
  · exact ((h.1 (by decide)).2).trans (by decide)
  · exact (h.2.2 (by decide) (by decide) ⟨"b", "unstyled", 0, none⟩ rfl).1

set_option maxRecDepth 40000 in
/-- C3: for a 200-block document with no collapsed sections, a selection
inside the slice and the focus at filtered index 100, the window is
`start = 71`, `end = 129` and the output is exactly
`{0} ∪ [71..129] ∪ {199}` in that order. -/
theorem claim_C3_focus_mid_scenario :
    findIndexFilteredKey (sectionFilterGo (plainBlocks 200) 0 false) "100" = 100 ∧
    clampWindow 200 100 = (71, 129) ∧
    getLazyLoadedBlockIndexes (esSel "100" "100") (plainBlocks 200) "100" =
      some ((0 : Int) :: ((List.range 59).map (fun k => (71 + k : Int)) ++ [199])) := by
  refine ⟨by decide, by decide, by decide⟩

set_option maxRecDepth 40000 in
/-- C7 counterexample: with focus at filtered index 10, the code returns
`[0..58] ++ [199]`, not the contiguous range `[0..77]` the claim asserts. -/
theorem claim_C7_counterexample :
    getLazyLoadedBlockIndexes (esSel "10" "10") (plainBlocks 200) "10" =
      some ((List.range 59).map (fun k => (k : Int)) ++ [199]) ∧
    ((List.range 59).map (fun k => (k : Int)) ++ [199]) ≠
      (List.range 78).map (fun k => (k : Int)) := by
  refine ⟨by decide, by decide⟩

set_option maxRecDepth 40000 in
/-- C7 amended: the near-top clamp shifts the window to `start = 0`,
`end = 39 + 19 = 58` (not 77), and the output is `[0..58]` followed by the
last-block marker 199 (which is emitted, since `end < 199`). -/
theorem claim_C7_focus_near_top :
    clampWindow 200 10 = (0, 58) ∧
    getLazyLoadedBlockIndexes (esSel "10" "10") (plainBlocks 200) "10" =
      some ((List.range 59).map (fun k => (k : Int)) ++ [199]) := by
  refine ⟨by decide, by decide⟩

set_option maxRecDepth 40000 in
/-- C8 counterexample: when the focus key is absent, a 70-block document
yields the first 59 filtered indexes plus the last index, not the first
`maxWindowSize = 50` entries. -/
theorem claim_C8_counterexample :
    findIndexFilteredKey (sectionFilterGo (plainBlocks 70) 0 false) "none" = -1 ∧
    getLazyLoadedBlockIndexes (esSel "x" "x") (plainBlocks 70) "none" =
      some ((List.range 59).map (fun k => (k : Int)) ++ [69]) ∧
    ((List.range 59).map (fun k => (k : Int)) ++ [69]) ≠
      (List.range 50).map (fun k => (k : Int)) := by
  refine ⟨by decide, by decide, by decide⟩

/-- C8 amended: when the focus key is not found the call does not fail;
the focus index is -1, so (with no selection found and at least 60
filtered entries) the output is the original indexes of the first
`floor(max/2)*2 + 2*offset + 1 = 59` filtered entries followed by the last
original index. -/
theorem claim_C8_missing_focus_fallback (es : EditorState) (k : String)
    (bs : List Block) (blocks : List FilteredBlock) (hbs : bs ≠ [])
    (hfb : filteredBlocks bs = some blocks)
    (hfocus : findIndexFilteredKey blocks k = -1)
    (hsel1 : findIndexKey bs es.selection.startKey = -1)
    (hsel2 : findIndexKey bs es.selection.endKey = -1)
    (hlen : 60 ≤ blocks.length) :
    getLazyLoadedBlockIndexes es bs k =
      some ((blocks.take 59).map (fun fb => (fb.originalIndex : Int)) ++
        [(bs.length : Int) - 1]) := by
  have hlen2 : (60 : Int) ≤ (blocks.length : Int) := by exact_mod_cast hlen
  have hclamp : clampWindow blocks.length (-1) = (0, 58) := by
    have h58 : ¬((58 : Int) > (blocks.length : Int) - 1) := by omega
    simp only [clampWindow, MAX_LAZY_LOAD_BLOCKS, LAZY_LOAD_BLOCK_OFFSET]
    norm_num [h58]
  rw [getLazy_eq hbs hfb (by rw [hfocus, hclamp]) (by rw [hfocus, hclamp]),
    hsel1, hsel2]
  have hlast : (58 : Int) < (blocks.length : Int) - 1 := by omega
  simp [assembleIndexes, hlast]

set_option maxRecDepth 40000 in
/-- C8 witness at a concrete instance. -/
theorem claim_C8_witness :
    getLazyLoadedBlockIndexes (esSel "x" "x") (plainBlocks 70) "none" =
      some (((sectionFilterGo (plainBlocks 70) 0 false).take 59).map
        (fun fb => (fb.originalIndex : Int)) ++ [((plainBlocks 70).length : Int) - 1]) :=
  claim_C8_missing_focus_fallback (esSel "x" "x") "none" (plainBlocks 70)
    (sectionFilterGo (plainBlocks 70) 0 false) (by decide) (by decide) (by decide)
    (by decide) (by decide) (by decide)

set_option maxRecDepth 40000 in
/-- C4 failing input: with a collapsed section shrinking the filtered
sequence, a selection endpoint on the true last block (original index 80,
which differs from the filtered `LAST_BLOCK = 75`) passes the
`!== LAST_BLOCK` guard, so index 80 is emitted twice — once as a
below-slice selection marker and once as the last-block marker. -/
theorem claim_C4_duplicate_last_index :
    (80 : Int) = (collapsedFrontBlocks.length : Int) - 1 ∧
    ((getLazyLoadedBlockIndexes (esSel "80" "80") collapsedFrontBlocks "6").getD
      []).count 80 = 2 := by
  refine ⟨by decide, by decide⟩

/-- C5 failing input: `mapFilteredBlock` writes `originalIndex`,
`isSection` and `hidden` into the source block object itself (the loop of
lines 23-46 does this to every block of the caller-owned array), so the
blocks observed after the call differ from the blocks passed in. -/
theorem claim_C5_blocks_mutated :
    annotatePass [⟨"a", "unstyled", 0, none, none, none, none⟩] =
      [⟨"a", "unstyled", 0, none, some 0, some false, some false⟩] ∧
    annotatePass [⟨"a", "unstyled", 0, none, none, none, none⟩] ≠
      [⟨"a", "unstyled", 0, none, none, none, none⟩] := by
  refine ⟨by decide, by decide⟩

set_option maxRecDepth 40000 in
/-- C6 counterexample: block 5 sits inside the collapsed section (it is
not in the filtered sequence) and is not the last block, yet its original
index is emitted because the selection start key resolves to it in the
unfiltered array and it lies above the slice. -/
theorem claim_C6_counterexample :
    (¬∃ fb ∈ sectionFilterGo collapsedMidBlocks 0 false, fb.originalIndex = 5) ∧
    (5 : Int) ≠ (collapsedMidBlocks.length : Int) - 1 ∧
    (5 : Int) ∈ ((getLazyLoadedBlockIndexes (esSel "5" "5") collapsedMidBlocks
      "80").getD []) := by
  refine ⟨by decide, by decide, by decide⟩

/-- C6 amended: every emitted index is 0, the last original index, one of
the two selection findIndex results (which the code looks up in the
unfiltered array, so a collapsed-section member can be force-included as a
selection endpoint), or the original index of an entry of the filtered
sequence; the focus lookup itself only ever hits filtered entries. -/
theorem claim_C6_collapsed_members (es : EditorState) (bs : List Block)
    (k : String) (blocks : List FilteredBlock) (hbs : bs ≠ [])
    (hfb : filteredBlocks bs = some blocks) (out : List Int)
    (hout : getLazyLoadedBlockIndexes es bs k = some out) :
    ∀ x ∈ out, x = 0 ∨ x = (bs.length : Int) - 1 ∨
      x = findIndexKey bs es.selection.startKey ∨
      x = findIndexKey bs es.selection.endKey ∨
      ∃ fb ∈ sectionFilterGo bs 0 false, x = (fb.originalIndex : Int) := by
  rw [getLazy_eq hbs hfb rfl rfl] at hout
  have hbslen : 1 ≤ bs.length := List.length_pos.mpr hbs
  intro x hx
  rw [← Option.some_inj.mp hout] at hx
  have hite : ∀ (c : Prop) (inst : Decidable c) (y : Int),
      x ∈ (if c then [y] else []) → x = y := by
    intro c inst y hxy
    split at hxy
    · simpa using hxy
    · simp at hxy
  simp only [assembleIndexes] at hx
  rcases List.mem_append.mp hx with hx | h7
  · rcases List.mem_append.mp hx with hx | h6
    · rcases List.mem_append.mp hx with hx | h5
      · rcases List.mem_append.mp hx with hx | h4
        · rcases List.mem_append.mp hx with hx | h3
          · rcases List.mem_append.mp hx with h1 | h2
            · exact Or.inl (hite _ _ _ h1)
            · exact Or.inr (Or.inr (Or.inl (hite _ _ _ h2)))
          · exact Or.inr (Or.inr (Or.inr (Or.inl (hite _ _ _ h3))))
        · obtain ⟨fb, hmem, hfx⟩ := slice_mem_blocks h4
          rcases filteredBlocks_cases hbs hfb with hcase | ⟨lastB, -, hcase⟩
          · rw [hcase] at hmem
            exact Or.inr (Or.inr (Or.inr (Or.inr ⟨fb, hmem, hfx⟩)))
          · rw [hcase] at hmem
            rcases List.mem_append.mp hmem with hmem2 | hmem2
            · exact Or.inr (Or.inr (Or.inr (Or.inr ⟨fb, hmem2, hfx⟩)))
            · have hfbv : fb = mapFilteredBlock lastB (bs.length - 1)
                  (lastB.type == "ordered-list-item") (some true) := by
                simpa using hmem2
              refine Or.inr (Or.inl ?_)
              rw [hfx, hfbv]
              simp only [mapFilteredBlock]
              omega
      · exact Or.inr (Or.inr (Or.inl (hite _ _ _ h5)))
    · exact Or.inr (Or.inr (Or.inr (Or.inl (hite _ _ _ h6))))
  · exact Or.inr (Or.inl (hite _ _ _ h7))

set_option maxRecDepth 40000 in
/-- C6 witness: the amended theorem applied to the concrete collapsed
document at the emitted index 5 (which there equals the selection start
findIndex result). -/
theorem claim_C6_witness :
    (5 : Int) = 0 ∨ (5 : Int) = (collapsedMidBlocks.length : Int) - 1 ∨
    (5 : Int) = findIndexKey collapsedMidBlocks "5" ∨
    (5 : Int) = findIndexKey collapsedMidBlocks "5" ∨
    ∃ fb ∈ sectionFilterGo collapsedMidBlocks 0 false,
      (5 : Int) = (fb.originalIndex : Int) :=
  claim_C6_collapsed_members (esSel "5" "5") collapsedMidBlocks "80"
    (sectionFilterGo collapsedMidBlocks 0 false) (by decide) (by decide)
    ((getLazyLoadedBlockIndexes (esSel "5" "5") collapsedMidBlocks "80").getD [])
    (by decide) 5 (by decide)

theorem listNextAfter_range' :
    ∀ (n s i : Nat), listNextAfter (List.range' s n) i =
      if s ≤ i ∧ i + 1 < s + n then some (i + 1) else none := by
  intro n
  induction n with
  | zero =>
    intro s i
    rw [if_neg (by omega)]
    rfl
  | succ m ih =>
    intro s i
    cases m with
    | zero =>
      rw [if_neg (by omega)]
      rfl
    | succ m2 =>
      have hr : List.range' s (m2 + 2) = s :: List.range' (s + 1) (m2 + 1) :=
        List.range'_succ s (m2 + 1) 1
      have hr2 : List.range' (s + 1) (m2 + 1) = (s + 1) :: List.range' (s + 2) m2 :=
        List.range'_succ (s + 1) m2 1
      rw [hr, hr2]
      by_cases hsi : s = i
      · rw [listNextAfter, if_pos hsi, if_pos (by omega)]
        rw [hsi]
      · rw [listNextAfter, if_neg hsi, ← hr2, ih (s + 1) i]
        by_cases hcond : s + 1 ≤ i ∧ i + 1 < s + 1 + (m2 + 1)
        · rw [if_pos hcond, if_pos (by omega)]
        · rw [if_neg hcond, if_neg (by omega)]

theorem listPrevBefore_range' :
    ∀ (n s i : Nat), listPrevBefore (List.range' s n) i =
      if s + 1 ≤ i ∧ i < s + n then some (i - 1) else none := by
  intro n
  induction n with
  | zero =>
    intro s i
    rw [if_neg (by omega)]
    rfl
  | succ m ih =>
    intro s i
    cases m with
    | zero =>
      rw [if_neg (by omega)]
      rfl
    | succ m2 =>
      have hr : List.range' s (m2 + 2) = s :: List.range' (s + 1) (m2 + 1) :=
        List.range'_succ s (m2 + 1) 1
      have hr2 : List.range' (s + 1) (m2 + 1) = (s + 1) :: List.range' (s + 2) m2 :=
        List.range'_succ (s + 1) m2 1
      rw [hr, hr2]
      by_cases hsi : s + 1 = i
      · rw [listPrevBefore, if_pos hsi, if_pos (by omega)]
        rw [← hsi]
        simp
      · rw [listPrevBefore, if_neg hsi, ← hr2, ih (s + 1) i]
        by_cases hcond : s + 1 + 1 ≤ i ∧ i < s + 1 + (m2 + 1)
        · rw [if_pos hcond, if_pos (by omega)]
        · rw [if_neg hcond, if_neg (by omega)]

theorem flatDom_getElem_block {n j : Nat} (hj : j < n) :
    (flatDom n)[j + 2]? = some ⟨some 1, [], "DIV", false, false⟩ := by
  simp [flatDom, List.getElem?_replicate, hj]

theorem flatDom_getElem_container (n : Nat) :
    (flatDom n)[1]? = some ⟨some 0, List.range' 2 n, "DIV", false, false⟩ := by
  simp [flatDom]

theorem flatDom_getElem_body (n : Nat) :
    (flatDom n)[0]? = some ⟨none, [1], "BODY", false, false⟩ := by
  simp [flatDom]

theorem flatDom_nextSibling {n j : Nat} (hj : j < n) :
    nextSiblingOf (flatDom n) (j + 2) =
      if j + 1 < n then some (j + 3) else none := by
  simp only [nextSiblingOf, parentOf, flatDom_getElem_block hj,
    flatDom_getElem_container, listNextAfter_range']
  by_cases hcond : 2 ≤ j + 2 ∧ j + 2 + 1 < 2 + n
  · rw [if_pos hcond, if_pos (by omega)]
  · rw [if_neg hcond, if_neg (by omega)]

theorem flatDom_prevSibling {n j : Nat} (hj : j < n) :
    prevSiblingOf (flatDom n) (j + 2) =
      if 0 < j then some (j + 1) else none := by
  simp only [prevSiblingOf, parentOf, flatDom_getElem_block hj,
    flatDom_getElem_container, listPrevBefore_range']
  by_cases hcond : 2 + 1 ≤ j + 2 ∧ j + 2 < 2 + n
  · rw [if_pos hcond, if_pos (by omega)]
    congr 1
  · rw [if_neg hcond, if_neg (by omega)]

theorem flatDom_wrapper {n j : Nat} (hj : j < n) :
    getElementWrapper (flatDom n) (j + 2) = Except.ok (some 0) ∧
    isElementWrapped (flatDom n) (j + 2) = Except.ok false := by
  have hpar : parentOf (flatDom n) (j + 2) = some 1 := by
    simp only [parentOf, flatDom_getElem_block hj]
  have hpar1 : parentOf (flatDom n) 1 = some 0 := by
    simp only [parentOf, flatDom_getElem_container]
  have hw : getElementWrapper (flatDom n) (j + 2) = Except.ok (some 0) := by
    simp only [getElementWrapper, hpar, hpar1]
  refine ⟨hw, ?_⟩
  simp only [isElementWrapped, hw, flatDom_getElem_body]
  rfl

theorem getNextSibling_zero (d : Dom) (x : Option Nat) :
    getNextSibling d none x 0 = Except.ok x := by
  conv_lhs => rw [getNextSibling.eq_def]
  simp only [applyCallback]

theorem getNextSibling_step {d : Dom} {j m : Nat} (c : Nat)
    (hns : nextSiblingOf d j = some m) :
    getNextSibling d none (some j) (c + 1) = getNextSibling d none (some m) c := by
  conv_lhs => rw [getNextSibling.eq_def]
  simp only [applyCallback, hns]

theorem getNextSibling_step_end {d : Dom} {j : Nat} {w : Option Nat} (c : Nat)
    (hns : nextSiblingOf d j = none)
    (hw : getElementWrapper d j = Except.ok w)
    (hiw : isElementWrapped d j = Except.ok false) :
    getNextSibling d none (some j) (c + 1) = Except.ok (some j) := by
  conv_lhs => rw [getNextSibling.eq_def]
  simp only [applyCallback, hns, hw, hiw]
  rfl

theorem getPreviousSibling_zero (d : Dom) (x : Option Nat) :
    getPreviousSibling d none x 0 = Except.ok x := by
  conv_lhs => rw [getPreviousSibling.eq_def]
  simp only [applyCallback]

theorem getPreviousSibling_step {d : Dom} {j m : Nat} (c : Nat)
    (hps : prevSiblingOf d j = some m) :
    getPreviousSibling d none (some j) (c + 1) =
      getPreviousSibling d none (some m) c := by
  conv_lhs => rw [getPreviousSibling.eq_def]
  simp only [applyCallback, hps]

theorem getPreviousSibling_step_end {d : Dom} {j : Nat} (c : Nat)
    (hps : prevSiblingOf d j = none) :
    getPreviousSibling d none (some j) (c + 1) = Except.ok (some j) := by
  conv_lhs => rw [getPreviousSibling.eq_def]
  simp only [applyCallback, hps]

theorem getNextSibling_flat {n : Nat} (count j : Nat) (hj : j < n) :
    getNextSibling (flatDom n) none (some (j + 2)) count =
      Except.ok (some (min (j + count) (n - 1) + 2)) := by
  induction count generalizing j with
  | zero =>
    rw [getNextSibling_zero]
    congr 2
    omega
  | succ c ih =>
    by_cases hlt : j + 1 < n
    · rw [getNextSibling_step c (by rw [flatDom_nextSibling hj, if_pos hlt]),
        ih (j + 1) hlt]
      congr 3
      omega
    · obtain ⟨hw, hiw⟩ := flatDom_wrapper hj
      rw [getNextSibling_step_end c (by rw [flatDom_nextSibling hj, if_neg hlt]) hw hiw]
      congr 2
      omega

theorem getPreviousSibling_flat {n : Nat} (count j : Nat) (hj : j < n) :
    getPreviousSibling (flatDom n) none (some (j + 2)) count =
      Except.ok (some ((j - count) + 2)) := by
  induction count generalizing j with
  | zero =>
    rw [getPreviousSibling_zero]
    simp
  | succ c ih =>
    by_cases hpos : 0 < j
    · have hj2 : j - 1 < n := by omega
      have hstep : prevSiblingOf (flatDom n) (j + 2) = some ((j - 1) + 2) := by
        rw [flatDom_prevSibling hj, if_pos hpos]
        congr 1
        omega
      rw [getPreviousSibling_step c hstep, ih (j - 1) hj2]
      congr 3
      omega
    · rw [getPreviousSibling_step_end c (by rw [flatDom_prevSibling hj, if_neg hpos])]
      congr 3
      omega

/-- C9 counterexample: in a flat sequence of 10 block nodes, advancing 10
steps forward from node 5 (element id 7 in `flatDom 10`, whose blocks are
ids 2-11) returns the boundary node 9 (id 11), not null. -/
theorem claim_C9_counterexample :
    getNextSibling (flatDom 10) none (some 7) 10 = Except.ok (some 11) ∧
    (Except.ok (some 11) : Except Unit (Option Nat)) ≠ Except.ok none := by
  constructor
  · have h := getNextSibling_flat (n := 10) 10 5 (by omega)
    simpa using h
  · intro h
    simp at h

/-- C9 amended: when traversal runs off either end of a flat sibling chain
before consuming `count` steps, both navigators return the last reachable
node rather than null (forward: node `min (j + count) (n-1)`; backward:
node `j - count`, clamped at 0); a null starting node yields null only
when `count = 0`, and a null dereference (`Except.error`) otherwise. -/
theorem claim_C9_sibling_navigator (n j count : Nat) (hj : j < n) :
    getNextSibling (flatDom n) none (some (j + 2)) count =
      Except.ok (some (min (j + count) (n - 1) + 2)) ∧
    getPreviousSibling (flatDom n) none (some (j + 2)) count =
      Except.ok (some ((j - count) + 2)) ∧
    getNextSibling (flatDom n) none none 0 = Except.ok none ∧
    getNextSibling (flatDom n) none none (count + 1) = Except.error () := by
  refine ⟨getNextSibling_flat count j hj, getPreviousSibling_flat count j hj,
    getNextSibling_zero _ none, ?_⟩
  conv_lhs => rw [getNextSibling.eq_def]
  simp only [applyCallback]

/-- C9 witness at the concrete scenario: 10 flat blocks, node 5 advanced 4
steps forward is node 9 (id 11); the same node advanced 10 steps is still
node 9. -/
theorem claim_C9_witness :
    getNextSibling (flatDom 10) none (some (5 + 2)) 4 =
      Except.ok (some (min (5 + 4) (10 - 1) + 2)) ∧
    getPreviousSibling (flatDom 10) none (some (5 + 2)) 4 =
      Except.ok (some ((5 - 4) + 2)) ∧
    getNextSibling (flatDom 10) none none 0 = Except.ok none ∧
    getNextSibling (flatDom 10) none none (4 + 1) = Except.error () :=
  claim_C9_sibling_navigator 10 5 4 (by omega)
